import Mathlib

/-!
Shallow embedding of the genesis bootstrap assembler of
`x/genutil/collect.go` (`GenAppStateFromConfig` and `CollectStdTxs`).

Modelling conventions:
* Machine-level concerns (codec internals, file I/O) are represented by
  their observable outcomes: a directory listing is a `List DirEntry`
  whose `outcome` field records what reading and decoding that entry
  would produce; the account iterator is represented by the list of
  accounts it yields, in yield order.
* The Go `map[string]authexported.Account` is modelled as an association
  list with overwrite-on-insert semantics (`mapInsert`); only its lookup
  behaviour is observable.
* Go's unchecked type assertion `msgs[0].(validator.MsgCreateValidator)`
  panics at runtime when the message has another kind; this crash is
  modelled by the distinguished outcome `CollectError.castPanic`, which
  is not one of the returned input-error values.
* `sort.Strings` sorts byte-wise; for the character lists underlying
  Lean strings this is the lexicographic order `strLe` defined below
  (UTF-8 byte order and code-point order agree).
-/

namespace Genutil

/-- Validator description carried by a create-validator message
(`msg.Description.Name` in the source). -/
structure Description where
  name : String
deriving DecidableEq

/-- Embedded message of a genesis transaction.  The source downcasts the
single message to `validator.MsgCreateValidator`; any other concrete
message kind is collapsed into the `other` constructor. -/
inductive Msg where
  | createValidator (signer : String) (description : Description)
  | other (kind : String)
deriving DecidableEq

/-- Decoded genesis transaction (`authtypes.StdTx`): its embedded message
sequence (`GetMsgs`) and its memo (`GetMemo`, repurposed to carry the
node address `"<node-id>@<ip>:<port>"`). -/
structure StdTx where
  msgs : List Msg
  memo : String
deriving DecidableEq

/-- Genesis account as observed by this core: only its address string
(`acc.GetAddress().String()`) is used. -/
structure Account where
  address : String
deriving DecidableEq

/-- Go map assignment `m[k] = v`: any previous binding of `k` is
replaced.  Content, not representation order, is observable (Go map
iteration order is unspecified). -/
def mapInsert (m : List (String × Account)) (k : String) (v : Account) :
    List (String × Account) :=
  m.filter (fun p => decide (p.1 ≠ k)) ++ [(k, v)]

/-- Go map lookup `m[k]`. -/
def mapLookup (m : List (String × Account)) (k : String) : Option Account :=
  (m.find? (fun p => decide (p.1 = k))).map Prod.snd

/-- Index of genesis accounts keyed by address, built by
`genAccIterator.IterateGenesisAccounts` with the callback
`addrMap[acc.GetAddress().String()] = acc` (collect.go lines 87-94).
`accs` is the list of accounts the iterator yields, in yield order. -/
def buildAddrMap (accs : List Account) : List (String × Account) :=
  accs.foldl (fun m acc => mapInsert m acc.address acc) []

/-- Errors `CollectStdTxs` / `GenAppStateFromConfig` can produce, plus
the runtime panic of the unchecked downcast.  In the source all the
validation failures are `sdk.ErrUnknownRequest` values with the quoted
messages; the spec's taxonomy calls them `ValidationError`. -/
inductive CollectError where
  /-- `ioutil.ReadFile` failed for this directory entry (line 108). -/
  | ioError (fileName : String)
  /-- `cdc.UnmarshalJSON` failed on the file's payload (line 114). -/
  | decodeError (fileName : String)
  /-- "couldn't find node's address and IP in <file>" (line 125). -/
  | missingNodeAddress (fileName : String)
  /-- "each genesis transaction must provide a single genesis message"
  (line 132). -/
  | notSingleMessage
  /-- "Error account <addr> not in genesis.json: <addrMap>" (line 141);
  carries the unmatched address and the index snapshot printed by
  `%+v`. -/
  | signerNotFound (account : String) (snapshot : List (String × Account))
  /-- Runtime panic of `msgs[0].(validator.MsgCreateValidator)`
  (line 136) when the single message is not a create-validator
  message: the program crashes instead of returning an error. -/
  | castPanic
deriving DecidableEq

/-- Which of the outcomes are returned input-error values of the spec's
`ValidationError` class (missing memo, wrong message count, unknown
signer).  The runtime panic and the I/O / decode failures are not. -/
def CollectError.isValidationError : CollectError → Bool
  | .missingNodeAddress _ => true
  | .notSingleMessage => true
  | .signerNotFound _ _ => true
  | _ => false

/-- What reading and decoding a directory entry would produce:
`ioutil.ReadFile` failure, `cdc.UnmarshalJSON` failure, or a decoded
transaction. -/
inductive ReadOutcome where
  | readFail
  | decodeFail
  | decoded (tx : StdTx)
deriving DecidableEq

/-- One entry of the `ioutil.ReadDir` listing: its base name, whether it
is a directory, and what reading it would yield. -/
structure DirEntry where
  name : String
  isDir : Bool
  outcome : ReadOutcome
deriving DecidableEq

/-- Result of `filepath.Ext(filename) == ".json"`: `filepath.Ext` takes
the suffix starting at the final dot of the final path element, so the
comparison holds exactly when the entry name ends in `".json"`. -/
def hasJsonExt (name : String) : Bool :=
  ".json".data.isSuffixOf name.data

/-- Loop guard of collect.go line 101:
`if !fo.IsDir() && (filepath.Ext(filename) != ".json") { continue }`. -/
def skipEntry (e : DirEntry) : Bool :=
  !e.isDir && !(hasJsonExt e.name)

/-- Per-transaction validation and node-address extraction, collect.go
lines 123-148, in source order: memo must be non-empty; the message list
must be a singleton (else `notSingleMessage`); the single message is
downcast (panics if not create-validator); the signer must be in the
index; finally the node address contributes to the peer list unless the
validator name equals the local moniker.  Returns the contribution
(`some memo` or `none`) on success. -/
def validateTx (addrMap : List (String × Account)) (moniker fileName : String)
    (tx : StdTx) : Except CollectError (Option String) :=
  if tx.memo = "" then .error (.missingNodeAddress fileName)
  else
    match tx.msgs with
    | [Msg.createValidator signer desc] =>
      match mapLookup addrMap signer with
      | none => .error (.signerNotFound signer addrMap)
      | some _ =>
        if desc.name ≠ moniker then .ok (some tx.memo) else .ok none
    | [Msg.other _] => .error .castPanic
    | _ => .error .notSingleMessage

/-- The file loop of `CollectStdTxs` (lines 99-149): skipped entries are
passed over; otherwise the file is read, decoded, appended to
`appGenTxs`, validated, and its node address accumulated.  The first
failure aborts the loop. -/
def processEntries (m : List (String × Account)) (mk : String) :
    List DirEntry → Except CollectError (List StdTx × List String)
  | [] => .ok ([], [])
  | e :: rest =>
    if skipEntry e then processEntries m mk rest
    else
      match e.outcome with
      | .readFail => .error (.ioError e.name)
      | .decodeFail => .error (.decodeError e.name)
      | .decoded tx =>
        match validateTx m mk e.name tx with
        | .error err => .error err
        | .ok contrib =>
          match processEntries m mk rest with
          | .error err => .error err
          | .ok (txs, ips) => .ok (tx :: txs, contrib.toList ++ ips)

/-- Byte-wise (code-point-wise) lexicographic comparison on character
lists, the order `sort.Strings` uses. -/
def charListLe : List Char → List Char → Bool
  | [], _ => true
  | _ :: _, [] => false
  | a :: as, b :: bs =>
    if a < b then true else if b < a then false else charListLe as bs

/-- Byte-wise string comparison. -/
def strLe (a b : String) : Bool := charListLe a.data b.data

/-- `sort.Strings` (collect.go line 151): sorted rearrangement in
byte-wise order. -/
def sortStrings (l : List String) : List String :=
  l.insertionSort (fun a b => strLe a b = true)

/-- `CollectStdTxs` after a successful directory listing and a
successful decode of the genesis application state: `entries` is the
directory listing and `accs` the accounts yielded by the genesis
account iterator.  Returns the collected transactions and the
comma-joined sorted peer list (lines 151-152). -/
def CollectStdTxs (moniker : String) (entries : List DirEntry)
    (accs : List Account) : Except CollectError (List StdTx × String) :=
  match processEntries (buildAddrMap accs) moniker entries with
  | .error err => .error err
  | .ok (txs, ips) => .ok (txs, String.intercalate "," (sortStrings ips))

/-- Top-level error of `GenAppStateFromConfig`. -/
inductive GenError where
  | collect (e : CollectError)
  /-- "there must be at least one genesis tx" (line 41), the spec's
  `EmptyGenesisError`. -/
  | emptyGenesis
deriving DecidableEq

/-- Observable persistence effects of one `GenAppStateFromConfig` run:
the `persistent_peers` value written into `config.toml` (if written)
and the transaction list embedded in the persisted genesis document
(if written). -/
structure FsEffects where
  configFile : Option String
  genesisFile : Option (List StdTx)
deriving DecidableEq

/-- `GenAppStateFromConfig` (collect.go lines 25-65), in source order:
run `CollectStdTxs`; on success write `config.toml` with the computed
peer list (line 37) and only then reject an empty transaction list
(lines 40-42); otherwise merge the transactions into the genesis state
and persist the genesis document.  Serialization of the merged state is
modelled as always succeeding. -/
def GenAppStateFromConfig (moniker : String) (entries : List DirEntry)
    (accs : List Account) : Except GenError (List StdTx) × FsEffects :=
  match CollectStdTxs moniker entries accs with
  | .error e => (.error (.collect e), ⟨none, none⟩)
  | .ok (txs, peers) =>
    if txs.isEmpty then (.error .emptyGenesis, ⟨some peers, none⟩)
    else (.ok txs, ⟨some peers, some txs⟩)

/-- The transaction a directory entry contributes to `appGenTxs`:
its decoded transaction when the entry is not skipped. -/
def entryTx (e : DirEntry) : Option StdTx :=
  if skipEntry e then none
  else
    match e.outcome with
    | .decoded tx => some tx
    | _ => none

/-- The node address a directory entry contributes to the peer list:
the decoded transaction's memo when the entry is not skipped, the
transaction validates, and its validator name differs from the local
moniker. -/
def entryIp (m : List (String × Account)) (mk : String) (e : DirEntry) :
    Option String :=
  if skipEntry e then none
  else
    match e.outcome with
    | .decoded tx =>
      match validateTx m mk e.name tx with
      | .ok c => c
      | .error _ => none
    | _ => none

/-- Whether processing a directory entry succeeds: the entry is skipped,
or it decodes and its transaction validates. -/
def entryOk (m : List (String × Account)) (mk : String) (e : DirEntry) :
    Bool :=
  skipEntry e ||
    match e.outcome with
    | .decoded tx =>
      match validateTx m mk e.name tx with
      | .ok _ => true
      | .error _ => false
    | _ => false

/-- Validator display name of a transaction, when its message list is a
single create-validator message. -/
def txDisplayName (tx : StdTx) : Option String :=
  match tx.msgs with
  | [Msg.createValidator _ d] => some d.name
  | _ => none

/-! ### The byte-wise order is a linear order -/

theorem charListLe_total : ∀ a b : List Char,
    charListLe a b = true ∨ charListLe b a = true
  | [], _ => Or.inl rfl
  | _ :: _, [] => Or.inr rfl
  | a :: as, b :: bs => by
    by_cases hab : a < b
    · left; simp [charListLe, hab]
    · by_cases hba : b < a
      · right; simp [charListLe, hba, hab]
      · rcases charListLe_total as bs with h | h
        · left; simp [charListLe, hab, hba, h]
        · right; simp [charListLe, hab, hba, h]

theorem charListLe_trans : ∀ a b c : List Char, charListLe a b = true →
    charListLe b c = true → charListLe a c = true
  | [], _, _, _, _ => rfl
  | _ :: _, [], _, hab, _ => by simp [charListLe] at hab
  | _ :: _, _ :: _, [], _, hbc => by simp [charListLe] at hbc
  | a :: as, b :: bs, c :: cs, hab, hbc => by
    simp only [charListLe] at hab hbc ⊢
    rcases lt_trichotomy a b with h1 | h1 | h1
    · rcases lt_trichotomy b c with h2 | h2 | h2
      · simp [lt_trans h1 h2]
      · subst h2; simp [h1]
      · rw [if_neg (lt_asymm h2), if_pos h2] at hbc; exact absurd hbc (by simp)
    · subst h1
      rcases lt_trichotomy a c with h2 | h2 | h2
      · simp [h2]
      · subst h2
        rw [if_neg (lt_irrefl a)] at hab hbc ⊢
        rw [if_neg (lt_irrefl a)] at hab hbc ⊢
        exact charListLe_trans as bs cs hab hbc
      · rw [if_neg (lt_asymm h2), if_pos h2] at hbc; exact absurd hbc (by simp)
    · rw [if_neg (lt_asymm h1), if_pos h1] at hab; exact absurd hab (by simp)

theorem charListLe_antisymm : ∀ a b : List Char, charListLe a b = true →
    charListLe b a = true → a = b
  | [], [], _, _ => rfl
  | [], _ :: _, _, hba => by simp [charListLe] at hba
  | _ :: _, [], hab, _ => by simp [charListLe] at hab
  | a :: as, b :: bs, hab, hba => by
    simp only [charListLe] at hab hba
    rcases lt_trichotomy a b with h | h | h
    · rw [if_neg (lt_asymm h), if_pos h] at hba; exact absurd hba (by simp)
    · subst h
      rw [if_neg (lt_irrefl a)] at hab hba
      rw [if_neg (lt_irrefl a)] at hab hba
      rw [charListLe_antisymm as bs hab hba]
    · rw [if_neg (lt_asymm h), if_pos h] at hab; exact absurd hab (by simp)

theorem strLe_total (a b : String) : strLe a b = true ∨ strLe b a = true :=
  charListLe_total a.data b.data

theorem strLe_trans {a b c : String} (h₁ : strLe a b = true)
    (h₂ : strLe b c = true) : strLe a c = true :=
  charListLe_trans _ _ _ h₁ h₂

theorem strLe_antisymm {a b : String} (h₁ : strLe a b = true)
    (h₂ : strLe b a = true) : a = b := by
  cases a; cases b
  exact congrArg String.mk (charListLe_antisymm _ _ h₁ h₂)

instance : IsTotal String (fun a b => strLe a b = true) := ⟨strLe_total⟩

instance : IsTrans String (fun a b => strLe a b = true) :=
  ⟨fun _ _ _ => strLe_trans⟩

instance : IsAntisymm String (fun a b => strLe a b = true) :=
  ⟨fun _ _ => strLe_antisymm⟩

theorem sortStrings_perm (l : List String) : List.Perm (sortStrings l) l :=
  List.perm_insertionSort _ l

theorem sortStrings_sorted (l : List String) :
    (sortStrings l).Sorted (fun a b => strLe a b = true) :=
  List.sorted_insertionSort _ l

theorem sortStrings_eq_of_perm {l₁ l₂ : List String}
    (h : List.Perm l₁ l₂) : sortStrings l₁ = sortStrings l₂ :=
  List.eq_of_perm_of_sorted
    (((sortStrings_perm l₁).trans h).trans (sortStrings_perm l₂).symm)
    (sortStrings_sorted l₁) (sortStrings_sorted l₂)

theorem mem_sortStrings {l : List String} {s : String} :
    s ∈ sortStrings l ↔ s ∈ l :=
  (sortStrings_perm l).mem_iff

/-! ### Lookup behaviour of the account index -/

theorem find?_filter_of_imp {α : Type} {p q : α → Bool} (l : List α)
    (himp : ∀ x, p x = true → q x = true) :
    (l.filter q).find? p = l.find? p := by
  induction l with
  | nil => rfl
  | cons a l ih =>
    cases hq : q a
    · have hp : ¬ p a = true := fun hp => by simp [himp a hp] at hq
      rw [List.filter_cons_of_neg (by simp [hq]),
        List.find?_cons_of_neg _ hp, ih]
    · rw [List.filter_cons_of_pos (by simp [hq])]
      cases hp : p a
      · rw [List.find?_cons_of_neg _ (by simp [hp]),
          List.find?_cons_of_neg _ (by simp [hp]), ih]
      · rw [List.find?_cons_of_pos _ hp, List.find?_cons_of_pos _ hp]

theorem mapLookup_mapInsert (m : List (String × Account)) (k a : String)
    (v : Account) :
    mapLookup (mapInsert m k v) a =
      if a = k then some v else mapLookup m a := by
  unfold mapLookup mapInsert
  by_cases hak : a = k
  · subst hak
    have hnone : (m.filter fun p => decide (p.1 ≠ a)).find?
        (fun p => decide (p.1 = a)) = none := by
      rw [List.find?_eq_none]
      intro x hx
      have := (List.mem_filter.1 hx).2
      simp only [decide_eq_true_eq] at this ⊢
      exact this
    rw [List.find?_append, hnone]
    simp [List.find?]
  · rw [if_neg hak, List.find?_append,
      find?_filter_of_imp _ (fun x hx => by
        simp only [decide_eq_true_eq] at hx ⊢
        exact fun hk => hak (hx ▸ hk ▸ rfl))]
    cases hf : m.find? (fun p => decide (p.1 = a))
    · simp [List.find?, Ne.symm hak, Option.or]
    · simp [Option.or]

theorem foldl_insert_lookup (accs : List Account)
    (m : List (String × Account)) (a : String) :
    mapLookup (accs.foldl (fun acc x => mapInsert acc x.address x) m) a =
      (accs.reverse.find? (fun x => decide (x.address = a))).or
        (mapLookup m a) := by
  induction accs generalizing m with
  | nil => simp [Option.or]
  | cons x rest ih =>
    rw [List.foldl_cons, ih, List.reverse_cons, List.find?_append]
    cases hr : rest.reverse.find? (fun x => decide (x.address = a))
    · simp only [Option.or]
      rw [mapLookup_mapInsert]
      by_cases hax : a = x.address
      · simp [List.find?, hax, Option.or]
      · have : ¬ x.address = a := fun h => hax (h ▸ rfl)
        simp [List.find?, this, hax, Option.or]
    · simp [Option.or]

/-- Lookup in the built index finds the last yielded account with the
given address (`l.reverse.find?` returns the last matching element). -/
theorem buildAddrMap_lookup (accs : List Account) (a : String) :
    mapLookup (buildAddrMap accs) a =
      accs.reverse.find? (fun x => decide (x.address = a)) := by
  rw [buildAddrMap, foldl_insert_lookup]
  cases accs.reverse.find? (fun x => decide (x.address = a)) <;>
    simp [mapLookup, List.find?, Option.or]

theorem find?_congr_of_perm_of_unique {l₁ l₂ : List Account} {a : String}
    (hp : List.Perm l₁ l₂)
    (hu : ∀ x ∈ l₁, ∀ y ∈ l₁, x.address = y.address → x = y) :
    l₁.find? (fun x => decide (x.address = a)) =
      l₂.find? (fun x => decide (x.address = a)) := by
  cases h₁ : l₁.find? (fun x => decide (x.address = a)) with
  | none =>
    rw [List.find?_eq_none] at h₁
    symm
    rw [List.find?_eq_none]
    intro x hx
    exact h₁ x (hp.mem_iff.2 hx)
  | some x =>
    have hxl : x ∈ l₁ := List.mem_of_find?_eq_some h₁
    have hxa : x.address = a := by
      have := List.find?_some h₁
      simpa using this
    have hsome : (l₂.find? (fun x => decide (x.address = a))).isSome := by
      rw [List.find?_isSome]
      exact ⟨x, hp.mem_iff.1 hxl, by simp [hxa]⟩
    rcases Option.isSome_iff_exists.1 hsome with ⟨y, hy⟩
    have hyl : y ∈ l₁ := hp.mem_iff.2 (List.mem_of_find?_eq_some hy)
    have hya : y.address = a := by
      have := List.find?_some hy
      simpa using this
    rw [hy, hu x hxl y hyl (hxa.trans hya.symm)]

/-! ### Characterization of the file-processing loop -/

theorem processEntries_eq_of_all {m : List (String × Account)} {mk : String}
    {l : List DirEntry} (h : ∀ e ∈ l, entryOk m mk e = true) :
    processEntries m mk l =
      .ok (l.filterMap entryTx, l.filterMap (entryIp m mk)) := by
  induction l with
  | nil => rfl
  | cons e rest ih =>
    have he := h e (List.mem_cons_self e rest)
    have hrest := ih (fun x hx => h x (List.mem_cons_of_mem e hx))
    cases hskip : skipEntry e with
    | true =>
      simp [processEntries, entryTx, entryIp, hskip, List.filterMap_cons,
        hrest]
    | false =>
      simp only [entryOk, hskip, Bool.false_or] at he
      cases houtcome : e.outcome with
      | readFail => rw [houtcome] at he; simp at he
      | decodeFail => rw [houtcome] at he; simp at he
      | decoded tx =>
        rw [houtcome] at he
        simp only [] at he
        cases hval : validateTx m mk e.name tx with
        | error err => rw [hval] at he; simp at he
        | ok c =>
          cases c <;>
            simp [processEntries, entryTx, entryIp, hskip, houtcome, hval,
              List.filterMap_cons, hrest]

theorem processEntries_cons_ok {m : List (String × Account)} {mk : String}
    {e : DirEntry} {rest : List DirEntry} {txs : List StdTx}
    {ips : List String}
    (h : processEntries m mk (e :: rest) = .ok (txs, ips)) :
    entryOk m mk e = true ∧
      ∃ txs2 ips2, processEntries m mk rest = .ok (txs2, ips2) := by
  cases hskip : skipEntry e with
  | true =>
    rw [show processEntries m mk (e :: rest) = processEntries m mk rest by
      simp [processEntries, hskip]] at h
    exact ⟨by simp [entryOk, hskip], txs, ips, h⟩
  | false =>
    simp only [processEntries, hskip, Bool.false_eq_true, if_false] at h
    cases houtcome : e.outcome with
    | readFail => rw [houtcome] at h; simp at h
    | decodeFail => rw [houtcome] at h; simp at h
    | decoded tx =>
      rw [houtcome] at h
      simp only [] at h
      cases hval : validateTx m mk e.name tx with
      | error err => rw [hval] at h; simp at h
      | ok c =>
        rw [hval] at h
        simp only [] at h
        cases hrec : processEntries m mk rest with
        | error err => rw [hrec] at h; simp at h
        | ok pr =>
          obtain ⟨txs2, ips2⟩ := pr
          exact ⟨by simp [entryOk, hskip, houtcome, hval], txs2, ips2, rfl⟩

theorem all_entryOk_of_processEntries {m : List (String × Account)}
    {mk : String} {l : List DirEntry} {txs : List StdTx} {ips : List String}
    (h : processEntries m mk l = .ok (txs, ips)) :
    ∀ e ∈ l, entryOk m mk e = true := by
  induction l generalizing txs ips with
  | nil => intro x hx; cases hx
  | cons e rest ih =>
    intro x hx
    obtain ⟨he, txs2, ips2, hrec⟩ := processEntries_cons_ok h
    rcases List.mem_cons.1 hx with rfl | hx2
    · exact he
    · exact ih hrec x hx2

theorem processEntries_ok_inv {m : List (String × Account)} {mk : String}
    {l : List DirEntry} {txs : List StdTx} {ips : List String}
    (h : processEntries m mk l = .ok (txs, ips)) :
    txs = l.filterMap entryTx ∧ ips = l.filterMap (entryIp m mk) := by
  have hall := all_entryOk_of_processEntries h
  have h2 := processEntries_eq_of_all hall
  rw [h] at h2
  injection h2 with h3
  exact ⟨congrArg Prod.fst h3, congrArg Prod.snd h3⟩

theorem collect_ok_of_all {moniker : String} {entries : List DirEntry}
    {accs : List Account}
    (h : ∀ e ∈ entries, entryOk (buildAddrMap accs) moniker e = true) :
    CollectStdTxs moniker entries accs =
      .ok (entries.filterMap entryTx,
        String.intercalate ","
          (sortStrings
            (entries.filterMap (entryIp (buildAddrMap accs) moniker)))) := by
  unfold CollectStdTxs
  rw [processEntries_eq_of_all h]

theorem collect_ok_inv {moniker : String} {entries : List DirEntry}
    {accs : List Account} {txs : List StdTx} {p : String}
    (h : CollectStdTxs moniker entries accs = .ok (txs, p)) :
    (∀ e ∈ entries, entryOk (buildAddrMap accs) moniker e = true) ∧
    txs = entries.filterMap entryTx ∧
    p = String.intercalate ","
      (sortStrings
        (entries.filterMap (entryIp (buildAddrMap accs) moniker))) := by
  unfold CollectStdTxs at h
  cases hrec : processEntries (buildAddrMap accs) moniker entries with
  | error err => rw [hrec] at h; simp at h
  | ok pr =>
    obtain ⟨txs2, ips2⟩ := pr
    rw [hrec] at h
    simp only [] at h
    injection h with h2
    injection h2 with h3 h4
    obtain ⟨htxs, hips⟩ := processEntries_ok_inv hrec
    refine ⟨all_entryOk_of_processEntries hrec, ?_, ?_⟩
    · rw [← h3, htxs]
    · rw [← h4, hips]

theorem processEntries_append_error {m : List (String × Account)}
    {mk : String} {pre l : List DirEntry} {err : CollectError}
    (hpre : ∀ x ∈ pre, entryOk m mk x = true)
    (h : processEntries m mk l = .error err) :
    processEntries m mk (pre ++ l) = .error err := by
  induction pre with
  | nil => simpa
  | cons e rest ih =>
    have he := hpre e (List.mem_cons_self e rest)
    have hrest := ih (fun x hx => hpre x (List.mem_cons_of_mem e hx))
    cases hskip : skipEntry e with
    | true => simp [processEntries, hskip, hrest]
    | false =>
      simp only [entryOk, hskip, Bool.false_or] at he
      cases houtcome : e.outcome with
      | readFail => rw [houtcome] at he; simp at he
      | decodeFail => rw [houtcome] at he; simp at he
      | decoded tx =>
        rw [houtcome] at he
        simp only [] at he
        cases hval : validateTx m mk e.name tx with
        | error e2 => rw [hval] at he; simp at he
        | ok c =>
          simp [processEntries, hskip, houtcome, hval, hrest]

theorem processEntries_cons_error {m : List (String × Account)} {mk : String}
    {e : DirEntry} {tx : StdTx} {rest : List DirEntry} {err : CollectError}
    (hskip : skipEntry e = false) (hdec : e.outcome = ReadOutcome.decoded tx)
    (hval : validateTx m mk e.name tx = .error err) :
    processEntries m mk (e :: rest) = .error err := by
  simp [processEntries, hskip, hdec, hval]

theorem collect_error_of_processEntries {moniker : String}
    {entries : List DirEntry} {accs : List Account} {err : CollectError}
    (h : processEntries (buildAddrMap accs) moniker entries = .error err) :
    CollectStdTxs moniker entries accs = .error err := by
  unfold CollectStdTxs
  rw [h]

theorem validateTx_ok_some_inv {m : List (String × Account)}
    {mk f : String} {tx : StdTx} {s : String}
    (h : validateTx m mk f tx = .ok (some s)) :
    s = tx.memo ∧ txDisplayName tx ≠ some mk := by
  unfold validateTx at h
  by_cases hmemo : tx.memo = ""
  · rw [if_pos hmemo] at h; simp at h
  · rw [if_neg hmemo] at h
    cases hmsgs : tx.msgs with
    | nil => rw [hmsgs] at h; simp at h
    | cons msg restm =>
      cases restm with
      | nil =>
        cases msg with
        | createValidator signer desc =>
          rw [hmsgs] at h
          simp only [] at h
          cases hlook : mapLookup m signer with
          | none => rw [hlook] at h; simp at h
          | some acc =>
            rw [hlook] at h
            simp only [] at h
            by_cases hname : desc.name = mk
            · rw [if_neg (not_not_intro hname)] at h; simp at h
            · rw [if_pos hname] at h
              injection h with h2
              injection h2 with h3
              exact ⟨h3.symm, by
                simp only [txDisplayName, hmsgs]
                exact fun hc => hname (Option.some.inj hc)⟩
        | other k => rw [hmsgs] at h; simp at h
      | cons m2 rest2 => rw [hmsgs] at h; simp at h

theorem entryIp_some_inv {m : List (String × Account)} {mk : String}
    {e : DirEntry} {s : String} (h : entryIp m mk e = some s) :
    ∃ tx, entryTx e = some tx ∧ tx.memo = s ∧ txDisplayName tx ≠ some mk := by
  unfold entryIp at h
  cases hskip : skipEntry e with
  | true => rw [hskip] at h; simp at h
  | false =>
    rw [hskip] at h
    simp only [Bool.false_eq_true, if_false] at h
    cases houtcome : e.outcome with
    | readFail => rw [houtcome] at h; simp at h
    | decodeFail => rw [houtcome] at h; simp at h
    | decoded tx =>
      rw [houtcome] at h
      simp only [] at h
      cases hval : validateTx m mk e.name tx with
      | error e2 => rw [hval] at h; simp at h
      | ok c =>
        rw [hval] at h
        simp only [] at h
        obtain ⟨h1, h2⟩ := validateTx_ok_some_inv (show validateTx m mk
          e.name tx = .ok (some s) by rw [hval, h])
        exact ⟨tx, by simp [entryTx, hskip, houtcome], h1.symm, h2⟩

/-! ### Concrete fixtures used by witnesses and counterexamples -/

def accA : Account := ⟨"a1"⟩

def accB : Account := ⟨"a2"⟩

def txAlice : StdTx := ⟨[Msg.createValidator "a1" ⟨"alice"⟩], "pA@1:1"⟩

def txBob : StdTx := ⟨[Msg.createValidator "a2" ⟨"bob"⟩], "pB@2:2"⟩

def entAlice : DirEntry := ⟨"v1.json", false, ReadOutcome.decoded txAlice⟩

def entBob : DirEntry := ⟨"v2.json", false, ReadOutcome.decoded txBob⟩

def txSelfDup : StdTx := ⟨[Msg.createValidator "a1" ⟨"alice"⟩], "dup@1:1"⟩

def txOtherDup : StdTx := ⟨[Msg.createValidator "a2" ⟨"bob"⟩], "dup@1:1"⟩

def entSelfDup : DirEntry := ⟨"v1.json", false, ReadOutcome.decoded txSelfDup⟩

def entOtherDup : DirEntry :=
  ⟨"v2.json", false, ReadOutcome.decoded txOtherDup⟩

def txNoMsg : StdTx := ⟨[], "n@1:1"⟩

def entNoMsg : DirEntry := ⟨"v3.json", false, ReadOutcome.decoded txNoMsg⟩

def txGhost : StdTx := ⟨[Msg.createValidator "ghost" ⟨"gina"⟩], "g@1:1"⟩

def entGhost : DirEntry := ⟨"v4.json", false, ReadOutcome.decoded txGhost⟩

/-! ### Claims -/

/-- Claim C1, amended: when `CollectStdTxs` yields zero collected
genesis transactions, `GenAppStateFromConfig` fails with the
empty-genesis error and the genesis document is not persisted, but —
contrary to the claim that no output file is written — the network
configuration file has already been written, carrying the computed peer
list (collect.go writes `config.toml` at line 37, before the emptiness
check of lines 40-42). -/
theorem genAppState_empty_behavior (moniker : String)
    (entries : List DirEntry) (accs : List Account) (peers : String)
    (h : CollectStdTxs moniker entries accs = .ok ([], peers)) :
    GenAppStateFromConfig moniker entries accs =
      (.error GenError.emptyGenesis, ⟨some peers, none⟩) := by
  unfold GenAppStateFromConfig
  rw [h]
  simp only []
  rfl

/-- Claim C1 counterexample: on an empty transaction directory the run
does fail with the empty-genesis error, yet the network configuration
file has been written (with an empty peer list), refuting the part of
the claim that says neither output file is persisted. -/
theorem genAppState_empty_counterexample :
    (GenAppStateFromConfig "node" [] []).1 = .error GenError.emptyGenesis ∧
    (GenAppStateFromConfig "node" [] []).2.configFile = some "" :=
  ⟨rfl, rfl⟩

/-- Witness for `genAppState_empty_behavior` at the empty directory. -/
theorem genAppState_empty_behavior_witness :
    GenAppStateFromConfig "node" [] [] =
      (.error GenError.emptyGenesis, ⟨some "", none⟩) :=
  genAppState_empty_behavior "node" [] [] "" rfl

/-- Claim C2, amended: a decoded transaction with a non-empty memo whose
single embedded message is not a create-validator message makes the run
crash with the runtime panic of the unchecked type assertion
`msgs[0].(validator.MsgCreateValidator)` (collect.go line 136), modelled
as `castPanic`; no `ValidationError` value is returned to the caller. -/
theorem validate_unexpected_kind_panics (m : List (String × Account))
    (mk f : String) (tx : StdTx) (k : String)
    (hmemo : tx.memo ≠ "") (hmsgs : tx.msgs = [Msg.other k]) :
    validateTx m mk f tx = .error CollectError.castPanic ∧
    CollectError.castPanic.isValidationError = false := by
  refine ⟨?_, rfl⟩
  unfold validateTx
  rw [if_neg hmemo, hmsgs]

/-- Claim C2 counterexample: a single non-create-validator message with
a non-empty memo produces the modelled runtime panic, which is not a
returned `ValidationError` value. -/
theorem unexpected_kind_counterexample :
    validateTx [] "node" "v1.json" ⟨[Msg.other "send"], "m@1:1"⟩ =
      .error CollectError.castPanic ∧
    CollectError.castPanic.isValidationError = false :=
  ⟨rfl, rfl⟩

/-- Witness for `validate_unexpected_kind_panics`. -/
theorem validate_unexpected_kind_panics_witness :
    validateTx [] "node" "w2.json" ⟨[Msg.other "msgSend"], "w@1:1"⟩ =
      .error CollectError.castPanic ∧
    CollectError.castPanic.isValidationError = false :=
  validate_unexpected_kind_panics [] "node" "w2.json"
    ⟨[Msg.other "msgSend"], "w@1:1"⟩ "msgSend" (by decide) rfl

/-- Claim C3, amended: a directory entry that is not a directory and
whose name does not end in `.json` is silently skipped — never read, no
error, whatever reading it would have produced; but a subdirectory entry
is never skipped: the loop attempts to read it regardless of its name,
and the failing read of a directory aborts the run with an I/O error. -/
theorem skip_behavior (m : List (String × Account)) (mk : String)
    (e : DirEntry) (rest : List DirEntry) :
    (e.isDir = false → hasJsonExt e.name = false →
      processEntries m mk (e :: rest) = processEntries m mk rest) ∧
    (e.isDir = true → e.outcome = ReadOutcome.readFail →
      processEntries m mk (e :: rest) =
        .error (CollectError.ioError e.name)) := by
  constructor
  · intro h1 h2
    simp [processEntries, skipEntry, h1, h2]
  · intro h1 h2
    simp [processEntries, skipEntry, h1, h2]

/-- Claim C3 counterexample: the subdirectory entry `"sub"` is not
silently skipped — the loop attempts to read it and the run aborts with
an I/O error, where the claimed behaviour (skip) would have produced the
successful empty result. -/
theorem skip_subdirectory_counterexample :
    processEntries [] "node" [⟨"sub", true, ReadOutcome.readFail⟩] =
      .error (CollectError.ioError "sub") ∧
    processEntries [] "node" [⟨"sub", true, ReadOutcome.readFail⟩] ≠
      .ok ([], []) := by
  refine ⟨rfl, ?_⟩
  intro hcontra
  rw [show processEntries [] "node" [⟨"sub", true, ReadOutcome.readFail⟩] =
    .error (CollectError.ioError "sub") from rfl] at hcontra
  exact Except.noConfusion hcontra

/-- Witness for `skip_behavior`: a `.txt` file is skipped even though
reading it would fail, and a directory named `d.json` is read (and
errors) despite being a directory. -/
theorem skip_behavior_witness :
    processEntries [] "node" [⟨"notes.txt", false, ReadOutcome.readFail⟩] =
      processEntries [] "node" [] ∧
    processEntries [] "node" [⟨"d.json", true, ReadOutcome.readFail⟩] =
      .error (CollectError.ioError "d.json") :=
  ⟨(skip_behavior [] "node" ⟨"notes.txt", false, ReadOutcome.readFail⟩
      []).1 rfl rfl,
   (skip_behavior [] "node" ⟨"d.json", true, ReadOutcome.readFail⟩ []).2
      rfl rfl⟩

/-- Claim C4: for a fixed account set and moniker, if `CollectStdTxs`
succeeds on a directory listing, it also succeeds on any permutation of
that listing and produces a byte-identical persistent-peers string: the
peer list is independent of filesystem enumeration order. -/
theorem collect_peers_order_independent (moniker : String)
    (accs : List Account) (l1 l2 : List DirEntry) (txs1 : List StdTx)
    (p1 : String) (hperm : List.Perm l1 l2)
    (h1 : CollectStdTxs moniker l1 accs = .ok (txs1, p1)) :
    ∃ txs2, CollectStdTxs moniker l2 accs = .ok (txs2, p1) := by
  obtain ⟨hall, htxs, hp⟩ := collect_ok_inv h1
  have hall2 : ∀ e ∈ l2, entryOk (buildAddrMap accs) moniker e = true :=
    fun e he => hall e (hperm.mem_iff.2 he)
  refine ⟨l2.filterMap entryTx, ?_⟩
  rw [collect_ok_of_all hall2, hp, sortStrings_eq_of_perm
    (hperm.filterMap (entryIp (buildAddrMap accs) moniker))]

/-- Witness for `collect_peers_order_independent`: the two-validator run
in swapped order still produces `"pB@2:2"`. -/
theorem collect_peers_order_independent_witness :
    ∃ txs2, CollectStdTxs "alice" [entBob, entAlice] [accA, accB] =
      .ok (txs2, "pB@2:2") :=
  collect_peers_order_independent "alice" [accA, accB]
    [entAlice, entBob] [entBob, entAlice] [txAlice, txBob] "pB@2:2"
    (List.Perm.swap entBob entAlice []) rfl

/-- Claim C5: on a successful run the persistent-peers string is the
comma-join of the node-address memo strings of all validated
transactions not excluded by self-exclusion, arranged in byte-wise
lexicographically sorted order, and it is the empty string when no
address remains after exclusion. -/
theorem collect_peers_sorted_join (moniker : String)
    (entries : List DirEntry) (accs : List Account) (txs : List StdTx)
    (p : String)
    (h : CollectStdTxs moniker entries accs = .ok (txs, p)) :
    ∃ s : List String,
      List.Perm s
        (entries.filterMap (entryIp (buildAddrMap accs) moniker)) ∧
      s.Sorted (fun a b => strLe a b = true) ∧
      p = String.intercalate "," s ∧
      (entries.filterMap (entryIp (buildAddrMap accs) moniker) = [] →
        p = "") := by
  obtain ⟨-, -, hp⟩ := collect_ok_inv h
  refine ⟨sortStrings
    (entries.filterMap (entryIp (buildAddrMap accs) moniker)),
    sortStrings_perm _, sortStrings_sorted _, hp, ?_⟩
  intro h0
  rw [hp, h0]
  rfl

/-- Witness for `collect_peers_sorted_join` on the two-validator run. -/
theorem collect_peers_sorted_join_witness :
    ∃ s : List String,
      List.Perm s ([entAlice, entBob].filterMap
        (entryIp (buildAddrMap [accA, accB]) "alice")) ∧
      s.Sorted (fun a b => strLe a b = true) ∧
      "pB@2:2" = String.intercalate "," s ∧
      ([entAlice, entBob].filterMap
        (entryIp (buildAddrMap [accA, accB]) "alice") = [] →
        "pB@2:2" = "") :=
  collect_peers_sorted_join "alice" [entAlice, entBob] [accA, accB]
    [txAlice, txBob] "pB@2:2" rfl

/-- Claim C6, amended: a collected transaction whose validator display
name equals the local moniker contributes nothing to the peer list, so
its memo node-address is absent from the peers — provided no other
collected transaction with a different display name carries the same
memo string (without that proviso the address can still appear, see the
counterexample). -/
theorem self_excluded_not_in_peers (moniker : String)
    (entries : List DirEntry) (accs : List Account) (txs : List StdTx)
    (p : String) (e : DirEntry) (tx : StdTx)
    (hok : CollectStdTxs moniker entries accs = .ok (txs, p))
    (_he : e ∈ entries) (_hdec : entryTx e = some tx)
    (_hself : txDisplayName tx = some moniker)
    (huniq : ∀ e2 ∈ entries, ∀ tx2 : StdTx, entryTx e2 = some tx2 →
      tx2.memo = tx.memo → txDisplayName tx2 = some moniker) :
    tx.memo ∉ sortStrings
      (entries.filterMap (entryIp (buildAddrMap accs) moniker)) ∧
    p = String.intercalate "," (sortStrings
      (entries.filterMap (entryIp (buildAddrMap accs) moniker))) := by
  obtain ⟨-, -, hp⟩ := collect_ok_inv hok
  refine ⟨?_, hp⟩
  rw [mem_sortStrings]
  intro hmem
  obtain ⟨e2, he2, hip⟩ := List.mem_filterMap.1 hmem
  obtain ⟨tx2, hdec2, hmemo2, hname2⟩ := entryIp_some_inv hip
  exact hname2 (huniq e2 he2 tx2 hdec2 hmemo2)

/-- Claim C6 counterexample: two transactions share the memo
`"dup@1:1"`; one of them is the local node's own (display name
`"alice"` = moniker).  The run succeeds and the produced peers string is
exactly `"dup@1:1"`: the self transaction's node-address string does
appear in the output, carried there by the other validator. -/
theorem self_exclusion_counterexample :
    CollectStdTxs "alice" [entSelfDup, entOtherDup] [accA, accB] =
      .ok ([txSelfDup, txOtherDup], "dup@1:1") ∧
    txDisplayName txSelfDup = some "alice" ∧
    txSelfDup.memo = "dup@1:1" ∧
    txSelfDup.memo ∈ sortStrings ([entSelfDup, entOtherDup].filterMap
      (entryIp (buildAddrMap [accA, accB]) "alice")) :=
  ⟨rfl, rfl, rfl, by decide⟩

/-- Witness for `self_excluded_not_in_peers`: with distinct memos the
local node's address `"pA@1:1"` is indeed absent from the peers. -/
theorem self_excluded_not_in_peers_witness :
    txAlice.memo ∉ sortStrings ([entAlice, entBob].filterMap
      (entryIp (buildAddrMap [accA, accB]) "alice")) ∧
    "pB@2:2" = String.intercalate "," (sortStrings
      ([entAlice, entBob].filterMap
        (entryIp (buildAddrMap [accA, accB]) "alice"))) := by
  refine self_excluded_not_in_peers "alice" [entAlice, entBob]
    [accA, accB] [txAlice, txBob] "pB@2:2" entAlice txAlice rfl
    (List.mem_cons_self _ _) rfl rfl ?_
  intro e2 he2 tx2 hdec2 hmemo2
  rcases List.mem_cons.1 he2 with rfl | he2
  · rw [show entryTx entAlice = some txAlice from rfl] at hdec2
    injection hdec2 with h3
    rw [← h3]
    rfl
  · rcases List.mem_cons.1 he2 with rfl | he2
    · rw [show entryTx entBob = some txBob from rfl] at hdec2
      injection hdec2 with h3
      rw [← h3] at hmemo2
      exact absurd hmemo2 (by decide)
    · exact absurd he2 (List.not_mem_nil e2)

/-- Claim C7: a decoded transaction with a non-empty memo whose embedded
message count is zero or at least two makes the run fail with the
single-message `ValidationError`, aborting the whole run (`pre` lists
the earlier, successfully processed entries; `post` the remainder, which
is never reached). -/
theorem collect_fails_on_wrong_message_count (moniker : String)
    (accs : List Account) (pre post : List DirEntry) (e : DirEntry)
    (tx : StdTx)
    (hpre : ∀ x ∈ pre, entryOk (buildAddrMap accs) moniker x = true)
    (hskip : skipEntry e = false)
    (hdec : e.outcome = ReadOutcome.decoded tx)
    (hmemo : tx.memo ≠ "") (hlen : tx.msgs.length ≠ 1) :
    CollectStdTxs moniker (pre ++ e :: post) accs =
      .error CollectError.notSingleMessage ∧
    CollectError.notSingleMessage.isValidationError = true := by
  refine ⟨?_, rfl⟩
  apply collect_error_of_processEntries
  apply processEntries_append_error hpre
  apply processEntries_cons_error hskip hdec
  unfold validateTx
  rw [if_neg hmemo]
  cases hmsgs : tx.msgs with
  | nil => rfl
  | cons msg restm =>
    cases restm with
    | nil => rw [hmsgs] at hlen; simp at hlen
    | cons m2 rest2 => cases msg <;> rfl

/-- Witness for `collect_fails_on_wrong_message_count`: a zero-message
transaction aborts the run. -/
theorem collect_fails_on_wrong_message_count_witness :
    CollectStdTxs "alice" [entNoMsg] [] =
      .error CollectError.notSingleMessage ∧
    CollectError.notSingleMessage.isValidationError = true :=
  collect_fails_on_wrong_message_count "alice" [] [] [] entNoMsg txNoMsg
    (by intro x hx; cases hx) rfl rfl (by decide) (by decide)

/-- Claim C8: a transaction whose single create-validator message names
a signer address absent from the genesis-account index makes the run
fail with a `ValidationError` value that carries the unmatched address
together with the index snapshot; the run aborts, so the transaction is
not silently dropped from any output. -/
theorem collect_fails_on_unknown_signer (moniker : String)
    (accs : List Account) (pre post : List DirEntry) (e : DirEntry)
    (tx : StdTx) (signer : String) (desc : Description)
    (hpre : ∀ x ∈ pre, entryOk (buildAddrMap accs) moniker x = true)
    (hskip : skipEntry e = false)
    (hdec : e.outcome = ReadOutcome.decoded tx)
    (hmemo : tx.memo ≠ "")
    (hmsgs : tx.msgs = [Msg.createValidator signer desc])
    (hlook : mapLookup (buildAddrMap accs) signer = none) :
    CollectStdTxs moniker (pre ++ e :: post) accs =
      .error (CollectError.signerNotFound signer (buildAddrMap accs)) ∧
    (CollectError.signerNotFound signer
      (buildAddrMap accs)).isValidationError = true := by
  refine ⟨?_, rfl⟩
  apply collect_error_of_processEntries
  apply processEntries_append_error hpre
  apply processEntries_cons_error hskip hdec
  unfold validateTx
  rw [if_neg hmemo, hmsgs]
  simp only []
  rw [hlook]

/-- Witness for `collect_fails_on_unknown_signer`: signer `"ghost"` is
not among the genesis accounts. -/
theorem collect_fails_on_unknown_signer_witness :
    CollectStdTxs "alice" [entGhost] [accA] =
      .error (CollectError.signerNotFound "ghost" (buildAddrMap [accA])) ∧
    (CollectError.signerNotFound "ghost"
      (buildAddrMap [accA])).isValidationError = true :=
  collect_fails_on_unknown_signer "alice" [accA] [] [] entGhost txGhost
    "ghost" ⟨"gina"⟩ (by intro x hx; cases hx) rfl rfl (by decide) rfl rfl

/-- Claim C9: the account index maps each address to the last account
the iterator yielded with that address (last-wins on duplicates, no
error raised — index building is total), and for account sequences with
pairwise distinct addresses the lookup behaviour of the built index is
independent of the iteration order. -/
theorem addrMap_last_wins_order_irrelevant :
    (∀ (accs : List Account) (a : String),
      mapLookup (buildAddrMap accs) a =
        accs.reverse.find? (fun x => decide (x.address = a))) ∧
    (∀ accs1 accs2 : List Account, List.Perm accs1 accs2 →
      (accs1.map Account.address).Nodup →
      ∀ a, mapLookup (buildAddrMap accs1) a =
        mapLookup (buildAddrMap accs2) a) := by
  refine ⟨buildAddrMap_lookup, ?_⟩
  intro accs1 accs2 hperm hnodup a
  rw [buildAddrMap_lookup, buildAddrMap_lookup]
  apply find?_congr_of_perm_of_unique
  · exact (accs1.reverse_perm.trans hperm).trans accs2.reverse_perm.symm
  · intro x hx y hy hxy
    exact List.inj_on_of_nodup_map hnodup (accs1.reverse_perm.mem_iff.1 hx)
      (accs1.reverse_perm.mem_iff.1 hy) hxy

/-- Witness for `addrMap_last_wins_order_irrelevant`: a duplicated
address resolves to the last yielded account, and a two-account index is
insensitive to swapping the yield order. -/
theorem addrMap_last_wins_order_irrelevant_witness :
    mapLookup (buildAddrMap [⟨"a1"⟩, ⟨"a1"⟩, ⟨"a2"⟩]) "a1" =
      ([⟨"a1"⟩, ⟨"a1"⟩, ⟨"a2"⟩] : List Account).reverse.find?
        (fun x => decide (x.address = "a1")) ∧
    mapLookup (buildAddrMap [accA, accB]) "a2" =
      mapLookup (buildAddrMap [accB, accA]) "a2" :=
  ⟨addrMap_last_wins_order_irrelevant.1 [⟨"a1"⟩, ⟨"a1"⟩, ⟨"a2"⟩] "a1",
   addrMap_last_wins_order_irrelevant.2 [accA, accB] [accB, accA]
     (List.Perm.swap accB accA []) (by decide) "a2"⟩

/-- Claim C10: on a successful run `appGenTxs` is exactly the sequence
of decoded transactions of the non-skipped directory entries, in
directory order; hence every decoded transaction — in particular the
local node's own, whose display name equals the moniker — is in the
returned set.  Self-exclusion affects only the peer list, never the
transaction set. -/
theorem appGenTxs_contains_all (moniker : String)
    (entries : List DirEntry) (accs : List Account) (txs : List StdTx)
    (p : String)
    (h : CollectStdTxs moniker entries accs = .ok (txs, p)) :
    txs = entries.filterMap entryTx ∧
    ∀ e ∈ entries, ∀ tx : StdTx, entryTx e = some tx → tx ∈ txs := by
  obtain ⟨-, htxs, -⟩ := collect_ok_inv h
  refine ⟨htxs, ?_⟩
  intro e he tx hdec
  rw [htxs]
  exact List.mem_filterMap.2 ⟨e, he, hdec⟩

/-- Witness for `appGenTxs_contains_all`: the local node's own
transaction `txAlice` (display name = moniker `"alice"`) is returned in
`appGenTxs` even though it is excluded from the peer list. -/
theorem appGenTxs_contains_all_witness :
    [txAlice, txBob] = [entAlice, entBob].filterMap entryTx ∧
    ∀ e ∈ [entAlice, entBob], ∀ tx : StdTx, entryTx e = some tx →
      tx ∈ [txAlice, txBob] :=
  appGenTxs_contains_all "alice" [entAlice, entBob] [accA, accB]
    [txAlice, txBob] "pB@2:2" rfl

end Genutil
